import Mathlib

/-!
A verification development for the `HitSet` subsystem of
`src/osd/HitSet.h` and `src/osd/HitSet.cc`: the polymorphic hit-tracking
container, its three tracking-strategy variants, the `Params`
configuration type with its `Decoder`, and the self-describing wire
encoding of all of them.

Modelling conventions:
- machine integers are `Nat` with explicit reduction `% 2 ^ w` exactly
  where the C++ narrows or wraps (`uint64_t` counters wrap at `2 ^ 64`;
  `unsigned` return values narrow to `% 2 ^ 32`; `uint16_t` casts reduce
  `% 2 ^ 16`);
- the C++ `double` field `false_positive` is modelled as `ℚ`;
- a `bufferlist` is modelled as a list of wire items, one item per call
  to a supplied encoding primitive (`::encode` of an integer, of a
  `hash_set`, of a `bloom_filter`), and one `env` item per
  `ENCODE_START`/`ENCODE_FINISH` versioned envelope;
- a decode that throws `buffer::malformed_input` (or runs off the end of
  the buffer) is `Except.error`; a fatal precondition violation
  (dereferencing a null `impl` pointer) is `Option.none`.
-/

/-- The object identity key `hobject_t` (external to the subsystem):
an opaque, totally ordered, hashable identity carrying a stable 32-bit
hash code in its `hash` field.  Field order follows the C++ constructor
`hobject_t(oid, key, snap, hash, pool, nspace)`. -/
structure hobject_t where
  oid : String
  key : String
  snap : ℕ
  hash : ℕ
  pool : ℕ
  nspace : String
deriving DecidableEq

/-- `HitSet::impl_type_t` from HitSet.h lines 35-40. -/
inductive impl_type_t where
  | TYPE_NONE
  | TYPE_EXPLICIT_HASH
  | TYPE_EXPLICIT_OBJECT
  | TYPE_BLOOM
deriving DecidableEq

/-- The numeric value of each enumerator (HitSet.h lines 36-39),
which is also the wire tag byte. -/
def impl_type_t.tag : impl_type_t → ℕ
  | .TYPE_NONE => 0
  | .TYPE_EXPLICIT_HASH => 1
  | .TYPE_EXPLICIT_OBJECT => 2
  | .TYPE_BLOOM => 3

/-- `HitSet::get_type_name(impl_type_t)` (HitSet.h lines 42-50). -/
def get_type_name_of_tag : impl_type_t → String
  | .TYPE_NONE => "none"
  | .TYPE_EXPLICIT_HASH => "explicit_hash"
  | .TYPE_EXPLICIT_OBJECT => "explicit_object"
  | .TYPE_BLOOM => "bloom"

/-- Modelled from the spec: `compressible_bloom_filter` lives in
`common/bloom_filter.hpp`, which is not among the provided sources; this
model keeps exactly the contract the spec states for it (spec section
4.4 and the glossary).  `insert_calls` is the raw insert counter behind
`element_count()`; `inserted` is the set of hashes genuinely inserted
(membership for these is always reported true: no false negatives);
`extra` are hashes the bit pattern happens to also report as present
(false positives are allowed); `densityVal` is the fraction of bits set
in the bit array, an abstract observation here; `compressions` records
each compression percentage applied, newest first (compression shrinks
the bit array while preserving no-false-negative membership, so the
model keeps `inserted` and the counters intact and records the request). -/
structure compressible_bloom_filter where
  insert_calls : ℕ
  inserted : Finset ℕ
  extra : Finset ℕ
  densityVal : ℚ
  compressions : List ℚ
deriving DecidableEq

/-- Modelled from the spec: a freshly constructed filter has nothing
inserted and no bits set.  The constructor arguments
`(target_size, false_positive, seed)` only govern the initial bit-array
sizing, which the model abstracts away. -/
def compressible_bloom_filter.empty : compressible_bloom_filter :=
  { insert_calls := 0, inserted := ∅, extra := ∅, densityVal := 0,
    compressions := [] }

/-- Modelled from the spec: `bloom.insert(hash)` counts the call and
records the hash. -/
def compressible_bloom_filter.insert (f : compressible_bloom_filter)
    (h : ℕ) : compressible_bloom_filter :=
  { f with insert_calls := f.insert_calls + 1,
           inserted := Insert.insert h f.inserted }

/-- Modelled from the spec: membership is true for every genuinely
inserted hash and for the false-positive hashes. -/
def compressible_bloom_filter.contains (f : compressible_bloom_filter)
    (h : ℕ) : Bool :=
  decide (h ∈ f.inserted ∨ h ∈ f.extra)

/-- Modelled from the spec: `element_count()` is the raw insert counter. -/
def compressible_bloom_filter.element_count
    (f : compressible_bloom_filter) : ℕ :=
  f.insert_calls

/-- Modelled from the spec: `approx_unique_element_count()` is a
cardinality estimate; the model takes the simplest estimate consistent
with the contract, the exact cardinality of the inserted hashes. -/
def compressible_bloom_filter.approx_unique_element_count
    (f : compressible_bloom_filter) : ℕ :=
  f.inserted.card

/-- Modelled from the spec: `density()` is the fraction of bits set. -/
def compressible_bloom_filter.density
    (f : compressible_bloom_filter) : ℚ :=
  f.densityVal

/-- Modelled from the spec: `compress(pc)` shrinks the bit array to the
given percentage while preserving no-false-negative membership; the
model records the request and keeps the observable content. -/
def compressible_bloom_filter.compress (f : compressible_bloom_filter)
    (pc : ℚ) : compressible_bloom_filter :=
  { f with compressions := pc :: f.compressions }

/-- `ExplicitHashHitSet` state (HitSet.h lines 217-219): a `uint64_t`
insert counter and a `hash_set<uint32_t>` of observed hash codes. -/
structure ExplicitHashHitSet where
  count : ℕ
  hits : Finset ℕ
deriving DecidableEq

/-- The default constructor `ExplicitHashHitSet() : count(0)`
(HitSet.h line 232); the `Params`-taking constructor produces the same
state. -/
def ExplicitHashHitSet.init : ExplicitHashHitSet :=
  { count := 0, hits := ∅ }

/-- HitSet.h lines 238-241: `hits.insert(o.hash); ++count;` (the counter
is `uint64_t`, so the increment wraps at `2 ^ 64`). -/
def ExplicitHashHitSet.insert (s : ExplicitHashHitSet)
    (o : hobject_t) : ExplicitHashHitSet :=
  { s with hits := Insert.insert o.hash s.hits, count := (s.count + 1) % 2 ^ 64 }

/-- HitSet.h lines 242-244: `return hits.count(o.hash);`. -/
def ExplicitHashHitSet.contains (s : ExplicitHashHitSet)
    (o : hobject_t) : Bool :=
  decide (o.hash ∈ s.hits)

/-- HitSet.h lines 245-247: `unsigned insert_count() const { return
count; }` — the `uint64_t` counter is narrowed to a 32-bit `unsigned`. -/
def ExplicitHashHitSet.insert_count (s : ExplicitHashHitSet) : ℕ :=
  s.count % 2 ^ 32

/-- HitSet.h lines 248-250: `unsigned approx_unique_insert_count() const
{ return hits.size(); }`, again narrowed to 32 bits. -/
def ExplicitHashHitSet.approx_unique_insert_count
    (s : ExplicitHashHitSet) : ℕ :=
  s.hits.card % 2 ^ 32

/-- `ExplicitObjectHitSet` state (HitSet.h lines 284-285): a `uint64_t`
insert counter and a `hash_set<hobject_t>` of full identities. -/
structure ExplicitObjectHitSet where
  count : ℕ
  hits : Finset hobject_t
deriving DecidableEq

/-- HitSet.h line 299. -/
def ExplicitObjectHitSet.init : ExplicitObjectHitSet :=
  { count := 0, hits := ∅ }

/-- HitSet.h lines 305-308: `hits.insert(o); ++count;`. -/
def ExplicitObjectHitSet.insert (s : ExplicitObjectHitSet)
    (o : hobject_t) : ExplicitObjectHitSet :=
  { s with hits := Insert.insert o s.hits, count := (s.count + 1) % 2 ^ 64 }

/-- HitSet.h lines 309-311. -/
def ExplicitObjectHitSet.contains (s : ExplicitObjectHitSet)
    (o : hobject_t) : Bool :=
  decide (o ∈ s.hits)

/-- HitSet.h lines 312-314 (narrowing `uint64_t` to `unsigned`). -/
def ExplicitObjectHitSet.insert_count (s : ExplicitObjectHitSet) : ℕ :=
  s.count % 2 ^ 32

/-- HitSet.h lines 315-317 (narrowing `size_t` to `unsigned`). -/
def ExplicitObjectHitSet.approx_unique_insert_count
    (s : ExplicitObjectHitSet) : ℕ :=
  s.hits.card % 2 ^ 32

/-- `BloomHitSet` (HitSet.h lines 353-354): wraps one
`compressible_bloom_filter`. -/
structure BloomHitSet where
  bloom : compressible_bloom_filter
deriving DecidableEq

/-- HitSet.h lines 422-424: `bloom.insert(o.hash)`. -/
def BloomHitSet.insert (s : BloomHitSet) (o : hobject_t) : BloomHitSet :=
  { bloom := s.bloom.insert o.hash }

/-- HitSet.h lines 425-427: `bloom.contains(o.hash)`. -/
def BloomHitSet.contains (s : BloomHitSet) (o : hobject_t) : Bool :=
  s.bloom.contains o.hash

/-- HitSet.h lines 428-430: `unsigned insert_count() const { return
bloom.element_count(); }` (narrowed to 32 bits by the return type). -/
def BloomHitSet.insert_count (s : BloomHitSet) : ℕ :=
  s.bloom.element_count % 2 ^ 32

/-- HitSet.h lines 431-433. -/
def BloomHitSet.approx_unique_insert_count (s : BloomHitSet) : ℕ :=
  s.bloom.approx_unique_element_count % 2 ^ 32

/-- HitSet.h lines 434-439: `double pc = (double)bloom.density() * 2.0 *
100.0; if (pc < 100.0) bloom.compress(pc);`. -/
def BloomHitSet.optimize (s : BloomHitSet) : BloomHitSet :=
  if s.bloom.density * 2 * 100 < 100 then
    { bloom := s.bloom.compress (s.bloom.density * 2 * 100) }
  else
    s

/-- The closed sum of concrete `HitSet::Impl` subclasses.  The C++ uses
an abstract base class with exactly these three implementations. -/
inductive HitSetImpl where
  | ehash (s : ExplicitHashHitSet)
  | eobj (s : ExplicitObjectHitSet)
  | ebloom (s : BloomHitSet)
deriving DecidableEq

/-- The `get_type()` override of each subclass. -/
def HitSetImpl.get_type : HitSetImpl → impl_type_t
  | .ehash _ => .TYPE_EXPLICIT_HASH
  | .eobj _ => .TYPE_EXPLICIT_OBJECT
  | .ebloom _ => .TYPE_BLOOM

/-- Virtual dispatch of `Impl::insert`. -/
def HitSetImpl.insert (i : HitSetImpl) (o : hobject_t) : HitSetImpl :=
  match i with
  | .ehash s => .ehash (s.insert o)
  | .eobj s => .eobj (s.insert o)
  | .ebloom s => .ebloom (s.insert o)

/-- Virtual dispatch of `Impl::contains`. -/
def HitSetImpl.contains (i : HitSetImpl) (o : hobject_t) : Bool :=
  match i with
  | .ehash s => s.contains o
  | .eobj s => s.contains o
  | .ebloom s => s.contains o

/-- Virtual dispatch of `Impl::insert_count`. -/
def HitSetImpl.insert_count : HitSetImpl → ℕ
  | .ehash s => s.insert_count
  | .eobj s => s.insert_count
  | .ebloom s => s.insert_count

/-- Virtual dispatch of `Impl::approx_unique_insert_count`. -/
def HitSetImpl.approx_unique_insert_count : HitSetImpl → ℕ
  | .ehash s => s.approx_unique_insert_count
  | .eobj s => s.approx_unique_insert_count
  | .ebloom s => s.approx_unique_insert_count

/-- Virtual dispatch of `Impl::optimize`: the base class provides the
empty default body `virtual void optimize() {}` (HitSet.h line 69),
which neither explicit variant overrides; only `BloomHitSet` does. -/
def HitSetImpl.optimize : HitSetImpl → HitSetImpl
  | .ehash s => .ehash s
  | .eobj s => .eobj s
  | .ebloom s => .ebloom s.optimize

/-- `HitSet` (HitSet.h line 73): owns zero or one `Impl` through
`boost::scoped_ptr<Impl> impl`. -/
structure HitSet where
  impl : Option HitSetImpl
deriving DecidableEq

/-- HitSet.h lines 51-55. -/
def HitSet.get_type_name (h : HitSet) : String :=
  match h.impl with
  | some i => get_type_name_of_tag i.get_type
  | none => get_type_name_of_tag .TYPE_NONE

/-- HitSet.h lines 179-181: `impl->insert(o)` — with a null `impl`
the `scoped_ptr` dereference is a fatal precondition violation, so the
result is `none`; otherwise the call forwards to the owned strategy. -/
def HitSet.insert (h : HitSet) (o : hobject_t) : Option HitSet :=
  h.impl.map fun i => { impl := some (i.insert o) }

/-- HitSet.h lines 184-186: same forwarding and same fatal null
dereference for `contains`. -/
def HitSet.contains (h : HitSet) (o : hobject_t) : Option Bool :=
  h.impl.map fun i => i.contains o

/-- HitSet.h lines 188-190. -/
def HitSet.insert_count (h : HitSet) : Option ℕ :=
  h.impl.map fun i => i.insert_count

/-- HitSet.h lines 191-193. -/
def HitSet.approx_unique_insert_count (h : HitSet) : Option ℕ :=
  h.impl.map fun i => i.approx_unique_insert_count

/-- HitSet.h lines 194-196. -/
def HitSet.optimize (h : HitSet) : Option HitSet :=
  h.impl.map fun i => { impl := some i.optimize }

/-- Iterated insertion, for stating properties about a `HitSet` built
by a sequence of insert calls. -/
def ExplicitHashHitSet.insertList (s : ExplicitHashHitSet)
    (l : List hobject_t) : ExplicitHashHitSet :=
  l.foldl ExplicitHashHitSet.insert s

/-- Iterated insertion for the full-identity variant. -/
def ExplicitObjectHitSet.insertList (s : ExplicitObjectHitSet)
    (l : List hobject_t) : ExplicitObjectHitSet :=
  l.foldl ExplicitObjectHitSet.insert s

/-- Iterated insertion for the Bloom variant. -/
def BloomHitSet.insertList (s : BloomHitSet)
    (l : List hobject_t) : BloomHitSet :=
  l.foldl BloomHitSet.insert s

/-- One item of an encoded `bufferlist`.  Each constructor corresponds
to one supplied encoding primitive of `include/encoding.h`: a byte, a
`uint16_t`, a `uint64_t`, a serialized `hash_set<uint32_t>`, a
serialized `hash_set<hobject_t>`, a serialized
`compressible_bloom_filter`, and the `ENCODE_START(v, compat, bl)` /
`ENCODE_FINISH(bl)` versioned envelope around a payload. -/
inductive WireItem where
  | u8 (n : ℕ)
  | u16 (n : ℕ)
  | u64 (n : ℕ)
  | hset (s : Finset ℕ)
  | oset (s : Finset hobject_t)
  | bloomData (f : compressible_bloom_filter)
  | env (v : ℕ) (compat : ℕ) (payload : List WireItem)

/-- `ExplicitHashHitSet::encode` (HitSet.h lines 251-256):
`ENCODE_START(1, 1, bl); ::encode(count, bl); ::encode(hits, bl);
ENCODE_FINISH(bl);`. -/
def ExplicitHashHitSet.encode (s : ExplicitHashHitSet) : List WireItem :=
  [.env 1 1 [.u64 s.count, .hset s.hits]]

/-- `ExplicitHashHitSet::decode` (HitSet.h lines 257-262); a buffer that
does not hold the expected fields makes the supplied decode primitives
throw, which is an error here. -/
def ExplicitHashHitSet.decode (l : List WireItem) :
    Except String ExplicitHashHitSet :=
  match l with
  | [.env 1 1 [.u64 c, .hset hs]] => .ok { count := c, hits := hs }
  | _ => .error "buffer decode error"

/-- `ExplicitObjectHitSet::encode` (HitSet.h lines 318-323). -/
def ExplicitObjectHitSet.encode (s : ExplicitObjectHitSet) :
    List WireItem :=
  [.env 1 1 [.u64 s.count, .oset s.hits]]

/-- `ExplicitObjectHitSet::decode` (HitSet.h lines 324-329). -/
def ExplicitObjectHitSet.decode (l : List WireItem) :
    Except String ExplicitObjectHitSet :=
  match l with
  | [.env 1 1 [.u64 c, .oset hs]] => .ok { count := c, hits := hs }
  | _ => .error "buffer decode error"

/-- `BloomHitSet::encode` (HitSet.h lines 441-445):
`ENCODE_START(1, 1, bl); ::encode(bloom, bl); ENCODE_FINISH(bl);`. -/
def BloomHitSet.encode (s : BloomHitSet) : List WireItem :=
  [.env 1 1 [.bloomData s.bloom]]

/-- `BloomHitSet::decode` (HitSet.h lines 446-450). -/
def BloomHitSet.decode (l : List WireItem) : Except String BloomHitSet :=
  match l with
  | [.env 1 1 [.bloomData f]] => .ok { bloom := f }
  | _ => .error "buffer decode error"

/-- `HitSet::encode` (HitSet.cc lines 47-57): envelope around the type
tag byte followed, when an implementation is owned, by its payload. -/
def HitSet.encode (h : HitSet) : List WireItem :=
  match h.impl with
  | none => [.env 1 1 [.u8 impl_type_t.TYPE_NONE.tag]]
  | some (.ehash s) =>
      [.env 1 1 (WireItem.u8 impl_type_t.TYPE_EXPLICIT_HASH.tag :: s.encode)]
  | some (.eobj s) =>
      [.env 1 1 (WireItem.u8 impl_type_t.TYPE_EXPLICIT_OBJECT.tag :: s.encode)]
  | some (.ebloom s) =>
      [.env 1 1 (WireItem.u8 impl_type_t.TYPE_BLOOM.tag :: s.encode)]

/-- `HitSet::decode` (HitSet.cc lines 59-83): read the tag byte inside
the envelope, reset `impl` to a fresh strategy of that type (or to null
for tag 0), and let it decode the rest; any tag outside 0-3 throws
`buffer::malformed_input("unrecognized HitMap type")`. -/
def HitSet.decode (l : List WireItem) : Except String HitSet :=
  match l with
  | [.env 1 1 (.u8 t :: payload)] =>
    match t with
    | 0 => .ok { impl := none }
    | 1 => (ExplicitHashHitSet.decode payload).map
        fun s => { impl := some (.ehash s) }
    | 2 => (ExplicitObjectHitSet.decode payload).map
        fun s => { impl := some (.eobj s) }
    | 3 => (BloomHitSet.decode payload).map
        fun s => { impl := some (.ebloom s) }
    | _ + 4 => .error "unrecognized HitMap type"
  | _ => .error "buffer decode error"

/-- `BloomHitSet::Params` payload fields (HitSet.h lines 365-367):
`double false_positive; uint64_t target_size; uint64_t seed;`. -/
structure BloomHitSet.Params where
  false_positive : ℚ
  target_size : ℕ
  seed : ℕ
deriving DecidableEq

/-- The C++ `static_cast<uint16_t>` applied to a non-negative floating
value: truncate toward zero and reduce to 16 bits. -/
def toU16 (q : ℚ) : ℕ :=
  (⌊q⌋).toNat % 2 ^ 16

/-- `BloomHitSet::Params::_encode_impl_bits` (HitSet.h lines 377-384):
the false-positive rate is scaled by one million and narrowed to a
`uint16_t` before being written. -/
def BloomHitSet.Params.encode_impl_bits (p : BloomHitSet.Params) :
    List WireItem :=
  [.env 1 1 [.u16 (toU16 (p.false_positive * 1000000)),
             .u64 p.target_size, .u64 p.seed]]

/-- `BloomHitSet::Params::_decode_impl_bits` (HitSet.h lines 385-393):
note that the source sets `false_positive = fpp_micro * 1000000.0`,
multiplying by the scale factor a second time instead of dividing. -/
def BloomHitSet.Params.decode_impl_bits (l : List WireItem) :
    Except String BloomHitSet.Params :=
  match l with
  | [.env 1 1 [.u16 m, .u64 t, .u64 s]] =>
      .ok { false_positive := (m : ℚ) * 1000000, target_size := t, seed := s }
  | _ => .error "buffer decode error"

/-- The closed sum of concrete `HitSet::Params` subtypes: the two
explicit subtypes carry no data (HitSet.h lines 221-230 and 287-297);
the Bloom subtype carries its tuning fields. -/
inductive ImplParams where
  | ehashP
  | eobjP
  | ebloomP (p : BloomHitSet.Params)
deriving DecidableEq

/-- The subtype payload written by `params->encode(bl)`: the default
`_encode_impl_bits` of the base class is an empty versioned envelope
(HitSet.h lines 87-90), which neither explicit subtype overrides; the
Bloom subtype writes its fields. -/
def ImplParams.encode_impl : ImplParams → List WireItem
  | .ehashP => [.env 1 1 []]
  | .eobjP => [.env 1 1 []]
  | .ebloomP p => p.encode_impl_bits

/-- `HitSet::Params` as held by the wrapper in HitSet.cc: a type tag
plus zero or one owned subtype value (`boost::scoped_ptr`-like). -/
structure HitSet.Params where
  type : impl_type_t
  params : Option ImplParams
deriving DecidableEq

/-- `HitSet::Params::encode` (HitSet.cc lines 148-159): envelope around
the tag byte, then the owned subtype payload when one is owned. -/
def HitSet.Params.encode (p : HitSet.Params) : List WireItem :=
  [.env 1 1 (WireItem.u8 p.type.tag ::
    (match p.params with
     | none => []
     | some ip => ip.encode_impl))]

/-- `HitSet::Params::decode` (HitSet.cc lines 161-185): read the tag
byte, construct the matching default subtype (or none for tag 0), and
let it decode its payload; any tag outside 0-3 throws
`buffer::malformed_input("unrecognized HitSet::Params type")`. -/
def HitSet.Params.decode (l : List WireItem) :
    Except String HitSet.Params :=
  match l with
  | [.env 1 1 (.u8 t :: payload)] =>
    match t with
    | 0 => .ok { type := .TYPE_NONE, params := none }
    | 1 =>
      match payload with
      | [.env 1 1 []] =>
          .ok { type := .TYPE_EXPLICIT_HASH, params := some .ehashP }
      | _ => .error "buffer decode error"
    | 2 =>
      match payload with
      | [.env 1 1 []] =>
          .ok { type := .TYPE_EXPLICIT_OBJECT, params := some .eobjP }
      | _ => .error "buffer decode error"
    | 3 => (BloomHitSet.Params.decode_impl_bits payload).map
        fun p => { type := .TYPE_BLOOM, params := some (.ebloomP p) }
    | _ + 4 => .error "unrecognized HitSet::Params type"
  | _ => .error "buffer decode error"

/-- `HitSet::Params::Decoder` (HitSet.h lines 140-164): owns zero or
one `Params` value through a raw pointer. -/
structure HitSet.Params.Decoder where
  params : Option HitSet.Params
deriving DecidableEq

/-- `Decoder::get_type` (HitSet.h lines 156-158):
`return (params ? params->type : TYPE_NONE);`. -/
def HitSet.Params.Decoder.get_type (d : HitSet.Params.Decoder) :
    impl_type_t :=
  match d.params with
  | some p => p.type
  | none => .TYPE_NONE

/-- `Decoder::extract_params` (HitSet.h line 162): the body is
`{ return params; params = NULL; }` — the assignment stands after the
return statement and is never executed, so the function hands out the
owned pointer while the decoder state is left unchanged. -/
def HitSet.Params.Decoder.extract_params (d : HitSet.Params.Decoder) :
    Option HitSet.Params × HitSet.Params.Decoder :=
  (d.params, d)

/-- `Decoder::reset_params` (HitSet.h line 163): `delete params;
params = p;` — the previously owned value is released and replaced. -/
def HitSet.Params.Decoder.reset_params (_d : HitSet.Params.Decoder)
    (p : Option HitSet.Params) : HitSet.Params.Decoder :=
  { params := p }

/-- A concrete object identity with hash code 5. -/
def ka : hobject_t :=
  { oid := "a", key := "", snap := 0, hash := 5, pool := 1, nspace := "" }

/-- A distinct object identity sharing hash code 5 with `ka`. -/
def kb : hobject_t :=
  { oid := "b", key := "", snap := 0, hash := 5, pool := 1, nspace := "" }

/-- A third object identity with hash code 7. -/
def kc : hobject_t :=
  { oid := "c", key := "", snap := 0, hash := 7, pool := 1, nspace := "" }

/-- A concrete Bloom configuration whose rate 1/16 = 0.0625 lies in the
encodable fixed-point range. -/
def bloomParamsEx : BloomHitSet.Params :=
  { false_positive := 1 / 16, target_size := 10, seed := 1 }

/-- A decoder owning a Bloom-typed `Params` value. -/
def decoderEx : HitSet.Params.Decoder :=
  { params := some { type := .TYPE_BLOOM, params := some (.ebloomP bloomParamsEx) } }

/-- An insert sequence of length 2 ^ 32: the same key 2 ^ 32 - 1 times,
then one key of a second hash code. -/
def lWrap : List hobject_t :=
  List.replicate (2 ^ 32 - 1) ka ++ [kc]

/-- A Bloom tracker whose filter sits at bit density 1/10. -/
def bLow : BloomHitSet :=
  { bloom := { insert_calls := 3, inserted := {5}, extra := ∅,
               densityVal := 1 / 10, compressions := [] } }

/-- After a run of inserts the hash-variant counter holds the number of
insert calls, wrapped at the `uint64_t` width. -/
theorem ehash_insertList_count (l : List hobject_t)
    (s : ExplicitHashHitSet) (hs : s.count < 2 ^ 64) :
    (s.insertList l).count = (s.count + l.length) % 2 ^ 64 := by
  induction l generalizing s with
  | nil => simpa [ExplicitHashHitSet.insertList] using (Nat.mod_eq_of_lt hs).symm
  | cons a l ih =>
      show ((s.insert a).insertList l).count = _
      rw [ih (s.insert a) (Nat.mod_lt _ (by norm_num))]
      show ((s.count + 1) % 2 ^ 64 + l.length) % 2 ^ 64 = _
      simp only [List.length_cons]
      omega

/-- After a run of inserts the hash-variant set holds the previous
hashes together with the hashes of the inserted keys. -/
theorem ehash_insertList_hits (l : List hobject_t)
    (s : ExplicitHashHitSet) :
    (s.insertList l).hits = s.hits ∪ (l.map hobject_t.hash).toFinset := by
  induction l generalizing s with
  | nil => simp [ExplicitHashHitSet.insertList]
  | cons a l ih =>
      show ((s.insert a).insertList l).hits = _
      rw [ih]
      simp [ExplicitHashHitSet.insert, Finset.insert_union, Finset.union_insert]

/-- Counter evolution for the full-identity variant. -/
theorem eobj_insertList_count (l : List hobject_t)
    (s : ExplicitObjectHitSet) (hs : s.count < 2 ^ 64) :
    (s.insertList l).count = (s.count + l.length) % 2 ^ 64 := by
  induction l generalizing s with
  | nil => simpa [ExplicitObjectHitSet.insertList] using (Nat.mod_eq_of_lt hs).symm
  | cons a l ih =>
      show ((s.insert a).insertList l).count = _
      rw [ih (s.insert a) (Nat.mod_lt _ (by norm_num))]
      show ((s.count + 1) % 2 ^ 64 + l.length) % 2 ^ 64 = _
      simp only [List.length_cons]
      omega

/-- Set evolution for the full-identity variant. -/
theorem eobj_insertList_hits (l : List hobject_t)
    (s : ExplicitObjectHitSet) :
    (s.insertList l).hits = s.hits ∪ l.toFinset := by
  induction l generalizing s with
  | nil => simp [ExplicitObjectHitSet.insertList]
  | cons a l ih =>
      show ((s.insert a).insertList l).hits = _
      rw [ih]
      simp [ExplicitObjectHitSet.insert, Finset.insert_union, Finset.union_insert]

/-- Raw counter evolution for the Bloom variant. -/
theorem BloomHitSet.insertList_calls (l : List hobject_t)
    (s : BloomHitSet) :
    (s.insertList l).bloom.insert_calls
      = s.bloom.insert_calls + l.length := by
  induction l generalizing s with
  | nil => simp [BloomHitSet.insertList]
  | cons a l ih =>
      show ((s.insert a).insertList l).bloom.insert_calls = _
      rw [ih]
      show s.bloom.insert_calls + 1 + l.length = _
      simp only [List.length_cons]
      omega

/-- Inserted-hash evolution for the Bloom variant. -/
theorem BloomHitSet.insertList_inserted (l : List hobject_t)
    (s : BloomHitSet) :
    (s.insertList l).bloom.inserted
      = s.bloom.inserted ∪ (l.map hobject_t.hash).toFinset := by
  induction l generalizing s with
  | nil => simp [BloomHitSet.insertList]
  | cons a l ih =>
      show ((s.insert a).insertList l).bloom.inserted = _
      rw [ih]
      simp [BloomHitSet.insert, compressible_bloom_filter.insert,
        Finset.insert_union, Finset.union_insert]

/-- The wire round trip is exact on the model: the supplied container
and filter primitives reproduce content, so decoding an encoding
reproduces the `HitSet` itself. -/
theorem HitSet.decode_encode (x : HitSet) :
    HitSet.decode (HitSet.encode x) = Except.ok x := by
  obtain ⟨i⟩ := x
  match i with
  | none => rfl
  | some (.ehash s) => rfl
  | some (.eobj s) => rfl
  | some (.ebloom s) => rfl

/-- C1: the claim asks that decoding the encoding of a Bloom `Params`
restore the false-positive rate within one millionth, but
`_decode_impl_bits` multiplies the stored 16-bit value by one million
instead of dividing; at rate 1/16 (inside the encodable range
[0, 0.065535]) the round trip returns 62500000000, far outside the
claimed resolution, while target_size and seed do round-trip exactly. -/
theorem bloom_params_fixed_point_bug :
    BloomHitSet.Params.decode_impl_bits
        (BloomHitSet.Params.encode_impl_bits bloomParamsEx)
      = Except.ok { false_positive := 62500000000, target_size := 10, seed := 1 }
    ∧ ¬ |(62500000000 : ℚ) - bloomParamsEx.false_positive| ≤ 1 / 1000000 := by
  constructor
  · have h16 : toU16 ((1 / 16 : ℚ) * 1000000) = 62500 := by
      simp only [toU16]
      norm_num
      decide
    simp only [BloomHitSet.Params.encode_impl_bits,
      BloomHitSet.Params.decode_impl_bits, bloomParamsEx, h16]
    norm_num
  · have h : bloomParamsEx.false_positive = 1 / 16 := rfl
    rw [h, abs_of_nonneg (by norm_num)]
    norm_num

/-- C2: the claim asks that after `extract_params()` the decoder own
nothing and report `TYPE_NONE`, but the body is
`{ return params; params = NULL; }`, whose assignment is dead code, so
the decoder still owns the value and `get_type()` still reports the
owned type. -/
theorem decoder_extract_params_keeps_ownership :
    (decoderEx.extract_params).1
        = some { type := .TYPE_BLOOM, params := some (.ebloomP bloomParamsEx) }
    ∧ (decoderEx.extract_params).2.get_type = .TYPE_BLOOM
    ∧ impl_type_t.TYPE_BLOOM ≠ impl_type_t.TYPE_NONE :=
  ⟨rfl, rfl, by decide⟩

/-- C4: a leading tag byte outside 0-3 makes both the `HitSet` decode
path and the `Params` decode path fail with the recoverable
malformed-input error, whatever the rest of the payload holds. -/
theorem decode_unknown_tag_malformed (t : ℕ) (payload : List WireItem)
    (ht : 4 ≤ t) :
    HitSet.decode [.env 1 1 (.u8 t :: payload)]
        = Except.error "unrecognized HitMap type"
    ∧ HitSet.Params.decode [.env 1 1 (.u8 t :: payload)]
        = Except.error "unrecognized HitSet::Params type" := by
  obtain ⟨n, rfl⟩ : ∃ n, t = n + 4 := ⟨t - 4, by omega⟩
  exact ⟨rfl, rfl⟩

/-- Closed instance of the unknown-tag property at tag byte 4. -/
theorem decode_unknown_tag_malformed_witness :
    HitSet.decode [.env 1 1 [.u8 4]]
        = Except.error "unrecognized HitMap type"
    ∧ HitSet.Params.decode [.env 1 1 [.u8 4]]
        = Except.error "unrecognized HitSet::Params type" :=
  decode_unknown_tag_malformed 4 [] (by decide)

/-- C8: inserting into or querying a strategy-less `HitSet` dereferences
the null `impl` pointer, a fatal precondition violation (`none` here);
with a strategy owned, both calls forward to it and reach no error
branch. -/
theorem hitset_insert_contains_precondition :
    (∀ k : hobject_t,
      HitSet.insert { impl := none } k = none
      ∧ HitSet.contains { impl := none } k = none)
    ∧ (∀ (i : HitSetImpl) (k : hobject_t),
      HitSet.insert { impl := some i } k = some { impl := some (i.insert k) }
      ∧ HitSet.contains { impl := some i } k = some (i.contains k)) :=
  ⟨fun _ => ⟨rfl, rfl⟩, fun _ _ => ⟨rfl, rfl⟩⟩

/-- C9: the hash variant answers membership purely by 32-bit hash code:
any key whose hash equals an inserted key's hash tests positive, whether
or not it was itself inserted, and a genuinely inserted key never tests
negative. -/
theorem ehash_contains_by_hash :
    (∀ (s : ExplicitHashHitSet) (k j : hobject_t), k.hash = j.hash →
      (s.insert j).contains k = true)
    ∧ (∀ (s : ExplicitHashHitSet) (l : List hobject_t) (k : hobject_t),
      k ∈ l → (s.insertList l).contains k = true) := by
  constructor
  · intro s k j hkj
    simp [ExplicitHashHitSet.contains, ExplicitHashHitSet.insert, hkj]
  · intro s l k hk
    have hm : k.hash ∈ (l.map hobject_t.hash).toFinset := by
      simp only [List.mem_toFinset, List.mem_map]
      exact ⟨k, hk, rfl⟩
    simp [ExplicitHashHitSet.contains, ehash_insertList_hits, hm]

/-- Closed instance of hash-collision membership: `ka` was never
inserted, only the distinct key `kb` with the same hash code was, and
`ka` still tests positive. -/
theorem ehash_contains_by_hash_witness :
    ka ≠ kb ∧ (ExplicitHashHitSet.init.insert kb).contains ka = true :=
  ⟨by decide, ehash_contains_by_hash.1 ExplicitHashHitSet.init ka kb (by decide)⟩

/-- C3: decoding the encoding of any `HitSet` succeeds and reproduces
the type name, both counts, and every membership answer; moreover a
Bloom `HitSet` built by any insert sequence still answers contains =
true after the round trip for each key that was inserted. -/
theorem hitset_roundtrip :
    (∀ x : HitSet, ∃ y : HitSet,
      HitSet.decode (HitSet.encode x) = Except.ok y
      ∧ y.get_type_name = x.get_type_name
      ∧ y.insert_count = x.insert_count
      ∧ y.approx_unique_insert_count = x.approx_unique_insert_count
      ∧ ∀ k : hobject_t, y.contains k = x.contains k)
    ∧ (∀ (b : BloomHitSet) (l : List hobject_t) (k : hobject_t), k ∈ l →
      ∃ y : HitSet,
        HitSet.decode
            (HitSet.encode { impl := some (.ebloom (b.insertList l)) })
          = Except.ok y
        ∧ y.contains k = some true) := by
  constructor
  · intro x
    exact ⟨x, HitSet.decode_encode x, rfl, rfl, rfl, fun _ => rfl⟩
  · intro b l k hk
    refine ⟨_, HitSet.decode_encode _, ?_⟩
    have hm : k.hash ∈ (b.insertList l).bloom.inserted := by
      rw [BloomHitSet.insertList_inserted]
      simp only [Finset.mem_union, List.mem_toFinset, List.mem_map]
      exact Or.inr ⟨k, hk, rfl⟩
    simp [HitSet.contains, HitSetImpl.contains, BloomHitSet.contains,
      compressible_bloom_filter.contains, hm]

/-- Closed round-trip instance: one key inserted into a fresh Bloom
tracker still tests positive after decode of encode. -/
theorem hitset_roundtrip_witness :
    ∃ y : HitSet,
      HitSet.decode (HitSet.encode { impl := some (.ebloom
          (BloomHitSet.insertList { bloom := compressible_bloom_filter.empty } [ka])) })
        = Except.ok y
      ∧ y.contains ka = some true :=
  hitset_roundtrip.2 { bloom := compressible_bloom_filter.empty } [ka] ka (by simp)

/-- C5 counterexample: the claim says approx_unique_insert_count equals
the number of distinct keys inserted, but the hash variant deduplicates
by 32-bit hash code: inserting the two distinct keys `ka` and `kb`
(equal hashes) gives insert_count 2 and 2 distinct keys, yet an exact
unique count of 1.  The claim also says insert_count equals N for any N,
but after the 2 ^ 32 inserts of `lWrap` it reports 0. -/
theorem explicit_counts_counterexample :
    (ka ≠ kb
    ∧ (ExplicitHashHitSet.init.insertList [ka, kb]).insert_count = 2
    ∧ [ka, kb].toFinset.card = 2
    ∧ (ExplicitHashHitSet.init.insertList [ka, kb]).approx_unique_insert_count
        = 1)
    ∧ (lWrap.length = 2 ^ 32
    ∧ (ExplicitHashHitSet.init.insertList lWrap).insert_count = 0) := by
  have hlen : lWrap.length = 2 ^ 32 := by
    rw [lWrap, List.length_append, List.length_replicate]
    norm_num
  refine ⟨by decide, hlen, ?_⟩
  rw [ExplicitHashHitSet.insert_count,
    ehash_insertList_count lWrap ExplicitHashHitSet.init
      (by norm_num [ExplicitHashHitSet.init]), hlen]
  have h0 : ExplicitHashHitSet.init.count = 0 := rfl
  rw [h0]
  norm_num

/-- C5 amended: starting empty, after N insert calls with N below 2^32,
insert_count reports N for both explicit variants, and
approx_unique_insert_count reports the number of distinct 32-bit hash
codes for the hash variant and the number of distinct keys for the
full-identity variant. -/
theorem explicit_counts_amended (l : List hobject_t)
    (hl : l.length < 2 ^ 32) :
    (ExplicitHashHitSet.init.insertList l).insert_count = l.length
    ∧ (ExplicitHashHitSet.init.insertList l).approx_unique_insert_count
        = (l.map hobject_t.hash).toFinset.card
    ∧ (ExplicitObjectHitSet.init.insertList l).insert_count = l.length
    ∧ (ExplicitObjectHitSet.init.insertList l).approx_unique_insert_count
        = l.toFinset.card := by
  have hhc : (l.map hobject_t.hash).toFinset.card ≤ l.length := by
    simpa using List.toFinset_card_le (l.map hobject_t.hash)
  have hoc : l.toFinset.card ≤ l.length := List.toFinset_card_le l
  refine ⟨?_, ?_, ?_, ?_⟩
  · rw [ExplicitHashHitSet.insert_count,
      ehash_insertList_count l ExplicitHashHitSet.init (by norm_num [ExplicitHashHitSet.init])]
    simp only [ExplicitHashHitSet.init]
    omega
  · rw [ExplicitHashHitSet.approx_unique_insert_count,
      ehash_insertList_hits]
    simp only [ExplicitHashHitSet.init, Finset.empty_union]
    omega
  · rw [ExplicitObjectHitSet.insert_count,
      eobj_insertList_count l ExplicitObjectHitSet.init (by norm_num [ExplicitObjectHitSet.init])]
    simp only [ExplicitObjectHitSet.init]
    omega
  · rw [ExplicitObjectHitSet.approx_unique_insert_count,
      eobj_insertList_hits]
    simp only [ExplicitObjectHitSet.init, Finset.empty_union]
    omega

/-- Closed instance of the amended counting property on a three-insert
sequence with one duplicated hash code. -/
theorem explicit_counts_amended_witness :
    (ExplicitHashHitSet.init.insertList [ka, kb, ka]).insert_count
        = [ka, kb, ka].length
    ∧ (ExplicitHashHitSet.init.insertList [ka, kb, ka]).approx_unique_insert_count
        = ([ka, kb, ka].map hobject_t.hash).toFinset.card
    ∧ (ExplicitObjectHitSet.init.insertList [ka, kb, ka]).insert_count
        = [ka, kb, ka].length
    ∧ (ExplicitObjectHitSet.init.insertList [ka, kb, ka]).approx_unique_insert_count
        = [ka, kb, ka].toFinset.card :=
  explicit_counts_amended [ka, kb, ka] (by decide)

/-- C7: `optimize()` on the Bloom variant compresses the filter exactly
when twice its bit density, as a percentage, is strictly below 100, and
to exactly that percentage; otherwise it leaves the tracker unchanged.
On both explicit variants `optimize()` is the base-class no-op. -/
theorem optimize_density_rule :
    (∀ b : BloomHitSet,
      (b.bloom.density * 2 * 100 < 100 →
        BloomHitSet.optimize b
          = { bloom := b.bloom.compress (b.bloom.density * 2 * 100) })
      ∧ (¬ b.bloom.density * 2 * 100 < 100 → BloomHitSet.optimize b = b))
    ∧ (∀ s : ExplicitHashHitSet, HitSetImpl.optimize (.ehash s) = .ehash s)
    ∧ (∀ s : ExplicitObjectHitSet, HitSetImpl.optimize (.eobj s) = .eobj s) := by
  refine ⟨fun b => ⟨fun h => ?_, fun h => ?_⟩, fun _ => rfl, fun _ => rfl⟩
  · simp only [BloomHitSet.optimize, if_pos h]
  · simp only [BloomHitSet.optimize, if_neg h]

/-- Closed instance: at density 1/10 the computed percentage is 20,
which is below 100, so optimize compresses to 20 percent. -/
theorem optimize_density_rule_witness :
    BloomHitSet.optimize bLow
      = { bloom := bLow.bloom.compress (bLow.bloom.density * 2 * 100) } :=
  (optimize_density_rule.1 bLow).1
    (by norm_num [bLow, compressible_bloom_filter.density])

/-- C6 counterexample: the claimed invariant insert_count >=
approx_unique_insert_count fails on the values the getters actually
report: after the 2^32 inserts of `lWrap` (two distinct hash codes among
them) the hash variant reports insert_count 0 — the 64-bit counter
narrowed to 32 bits — but approx_unique_insert_count 2. -/
theorem count_invariant_counterexample :
    ¬ ((ExplicitHashHitSet.init.insertList lWrap).approx_unique_insert_count
        ≤ (ExplicitHashHitSet.init.insertList lWrap).insert_count) := by
  have hlen : lWrap.length = 2 ^ 32 := by
    rw [lWrap, List.length_append, List.length_replicate]
    norm_num
  have hcount := ehash_insertList_count lWrap
    ExplicitHashHitSet.init (by norm_num [ExplicitHashHitSet.init])
  have hhits := ehash_insertList_hits lWrap ExplicitHashHitSet.init
  have hset : (lWrap.map hobject_t.hash).toFinset = ({5, 7} : Finset ℕ) := by
    rw [lWrap, List.map_append, List.map_replicate, List.toFinset_append,
      List.toFinset_replicate_of_ne_zero (by norm_num : 2 ^ 32 - 1 ≠ 0)]
    decide
  rw [ExplicitHashHitSet.approx_unique_insert_count,
    ExplicitHashHitSet.insert_count, hcount, hhits, hlen, hset]
  have h0 : ExplicitHashHitSet.init.count = 0 := rfl
  have h1 : ExplicitHashHitSet.init.hits = ∅ := rfl
  rw [h0, h1, Finset.empty_union]
  have h2 : ({5, 7} : Finset ℕ).card = 2 := by decide
  rw [h2]
  omega

/-- C6 amended: the invariant does hold on every state reachable by
fewer than 2^32 inserts from a fresh tracker, for all three variants. -/
theorem count_invariant_amended (l : List hobject_t)
    (hl : l.length < 2 ^ 32) :
    (ExplicitHashHitSet.init.insertList l).approx_unique_insert_count
        ≤ (ExplicitHashHitSet.init.insertList l).insert_count
    ∧ (ExplicitObjectHitSet.init.insertList l).approx_unique_insert_count
        ≤ (ExplicitObjectHitSet.init.insertList l).insert_count
    ∧ (BloomHitSet.insertList { bloom := compressible_bloom_filter.empty } l).approx_unique_insert_count
        ≤ (BloomHitSet.insertList { bloom := compressible_bloom_filter.empty } l).insert_count := by
  have hhc : (l.map hobject_t.hash).toFinset.card ≤ l.length := by
    simpa using List.toFinset_card_le (l.map hobject_t.hash)
  have hoc : l.toFinset.card ≤ l.length := List.toFinset_card_le l
  refine ⟨?_, ?_, ?_⟩
  · rw [ExplicitHashHitSet.approx_unique_insert_count,
      ExplicitHashHitSet.insert_count, ehash_insertList_hits,
      ehash_insertList_count l ExplicitHashHitSet.init
        (by norm_num [ExplicitHashHitSet.init])]
    simp only [ExplicitHashHitSet.init, Finset.empty_union]
    omega
  · rw [ExplicitObjectHitSet.approx_unique_insert_count,
      ExplicitObjectHitSet.insert_count, eobj_insertList_hits,
      eobj_insertList_count l ExplicitObjectHitSet.init
        (by norm_num [ExplicitObjectHitSet.init])]
    simp only [ExplicitObjectHitSet.init, Finset.empty_union]
    omega
  · rw [BloomHitSet.approx_unique_insert_count, BloomHitSet.insert_count,
      compressible_bloom_filter.approx_unique_element_count,
      compressible_bloom_filter.element_count,
      BloomHitSet.insertList_inserted, BloomHitSet.insertList_calls]
    simp only [compressible_bloom_filter.empty, Finset.empty_union]
    omega

/-- Closed instance of the amended invariant on a three-insert
sequence. -/
theorem count_invariant_amended_witness :
    (ExplicitHashHitSet.init.insertList [ka, kb, kc]).approx_unique_insert_count
        ≤ (ExplicitHashHitSet.init.insertList [ka, kb, kc]).insert_count
    ∧ (ExplicitObjectHitSet.init.insertList [ka, kb, kc]).approx_unique_insert_count
        ≤ (ExplicitObjectHitSet.init.insertList [ka, kb, kc]).insert_count
    ∧ (BloomHitSet.insertList { bloom := compressible_bloom_filter.empty } [ka, kb, kc]).approx_unique_insert_count
        ≤ (BloomHitSet.insertList { bloom := compressible_bloom_filter.empty } [ka, kb, kc]).insert_count :=
  count_invariant_amended [ka, kb, kc] (by decide)

/-- C10: the 64-bit insert counter of both explicit variants is
narrowed to 32 bits by `insert_count()`: any sequence of at least 2^32
inserts reports its length modulo 2^32, which differs from the length. -/
theorem insert_count_narrowing (l : List hobject_t)
    (hl : 2 ^ 32 ≤ l.length) :
    (ExplicitHashHitSet.init.insertList l).insert_count
        = l.length % 2 ^ 32
    ∧ (ExplicitObjectHitSet.init.insertList l).insert_count
        = l.length % 2 ^ 32
    ∧ l.length % 2 ^ 32 ≠ l.length := by
  refine ⟨?_, ?_, ?_⟩
  · rw [ExplicitHashHitSet.insert_count,
      ehash_insertList_count l ExplicitHashHitSet.init
        (by norm_num [ExplicitHashHitSet.init])]
    simp only [ExplicitHashHitSet.init]
    omega
  · rw [ExplicitObjectHitSet.insert_count,
      eobj_insertList_count l ExplicitObjectHitSet.init
        (by norm_num [ExplicitObjectHitSet.init])]
    simp only [ExplicitObjectHitSet.init]
    omega
  · omega

/-- Closed instance of the narrowing at exactly 2^32 inserts of the
same key: the reported count is 0, not 2^32. -/
theorem insert_count_narrowing_witness :
    (ExplicitHashHitSet.init.insertList (List.replicate (2 ^ 32) ka)).insert_count
        = (List.replicate (2 ^ 32) ka).length % 2 ^ 32
    ∧ (ExplicitObjectHitSet.init.insertList (List.replicate (2 ^ 32) ka)).insert_count
        = (List.replicate (2 ^ 32) ka).length % 2 ^ 32
    ∧ (List.replicate (2 ^ 32) ka).length % 2 ^ 32
        ≠ (List.replicate (2 ^ 32) ka).length :=
  insert_count_narrowing (List.replicate (2 ^ 32) ka)
    (by rw [List.length_replicate])
